import Mathlib

/-!
Verification development for the `functional_translation` repository.

The repository contains two variants of the same Express server
(`src/server/index.js`, called V1 below, and `src/unnamed/part_002`,
called V2 below) implementing an embedding cache and analogy-vector
search engine.  The pure computational core of both variants is embedded
shallowly here:

* JS `Float32Array` vectors are modeled as `List ℚ` (exact rational
  arithmetic in place of IEEE floats; the claims under study are about
  structure — lengths, ordering, exclusion, control flow — not float
  rounding).
* `Math.sqrt` is an external primitive of the JS runtime, so it is a
  parameter `sq : ℚ → ℚ` of every definition that uses it; the predicate
  `IsSqrtAt` records, pointwise, that `sq` really is a square root at
  the inputs a theorem needs.
* The embedding provider and the PCA routine are external collaborators
  (spec §1) and enter the model as parameters (`embs`, `pcaRun`).
* JS `Array.prototype.sort` with a consistent comparator is a stable
  sort; it is modeled by a stable insertion sort on indices.
-/

namespace FT

/-- `dot(a, b)` from both variants: `for (i < a.length) s += a[i]*b[i]`.
`zipWith` truncates at the shorter list, which matches the source loop
whenever `a.length ≤ b.length` (the only situation the server creates:
all rows and queries have length `dim`). -/
def dotQ (a b : List ℚ) : ℚ := (List.zipWith (· * ·) a b).sum

/-- The sum of squares `s` accumulated by `normalizeVec` (the square of
the Euclidean norm). -/
def sumSq (v : List ℚ) : ℚ := (v.map (fun x => x * x)).sum

/-- `sq` behaves as the true square root at the single input `q`. -/
def IsSqrtAt (sq : ℚ → ℚ) (q : ℚ) : Prop := 0 ≤ sq q ∧ sq q * sq q = q

instance (sq : ℚ → ℚ) (q : ℚ) : Decidable (IsSqrtAt sq q) :=
  inferInstanceAs (Decidable (0 ≤ sq q ∧ sq q * sq q = q))

/-- `normalizeVec(vec)` from both variants:
`norm = Math.sqrt(s) || 1; out[i] = vec[i] / norm`.
The JS `|| 1` replaces a falsy (`0`) square root by `1`, so a zero
vector is divided by `1`. -/
def normalizeVec (sq : ℚ → ℚ) (vec : List ℚ) : List ℚ :=
  let s := sumSq vec
  let norm := if sq s = 0 then 1 else sq s
  vec.map (fun x => x / norm)

/-- One entry of the list returned by `topKSimilar`:
`{ word, score, index }`. -/
structure Nbr where
  word : String
  score : ℚ
  index : ℕ
  deriving DecidableEq, Repr

/-- Insert index `x` into a list sorted by non-increasing `key`, after
every element of strictly larger key and before the first element whose
key is `≤ key x` (so, among equal keys, earlier-inserted elements that
came later in the original order stay behind `x`: stability). -/
def ordInsert (key : ℕ → ℚ) (x : ℕ) : List ℕ → List ℕ
  | [] => [x]
  | y :: ys => if key y ≤ key x then x :: y :: ys else y :: ordInsert key x ys

/-- Stable sort by non-increasing `key`; models
`idxs.sort((a, b) => sims[b] - sims[a])` (JS sort is stable and, with
this consistent comparator, orders by descending `sims`). -/
def sortKeyDesc (key : ℕ → ℚ) : List ℕ → List ℕ
  | [] => []
  | x :: xs => ordInsert key x (sortKeyDesc key xs)

/-- The result-collection loop of `topKSimilar`:
walk the sorted indices, skip excluded words, push a result, and
`break` once `res.length >= k` (checked after the push).  `cnt` is
`res.length` so far; the function returns the elements pushed from this
point on. -/
def collectTopK (vocab : List String) (sims : List ℚ) (k : ℤ)
    (exclude : List String) (cnt : ℕ) : List ℕ → List Nbr
  | [] => []
  | i :: rest =>
    let w := vocab.getD i ""
    if exclude.contains w then collectTopK vocab sims k exclude cnt rest
    else
      let nbr : Nbr := ⟨w, sims.getD i 0, i⟩
      if k ≤ (cnt : ℤ) + 1 then [nbr]
      else nbr :: collectTopK vocab sims k exclude (cnt + 1) rest

/-- `getRow(i)` over the matrix modeled as a list of rows (the source
stores the rows contiguously in one `Float32Array`; `getRow` carves out
row `i`, which is exactly the `i`-th row list here). -/
def getRowS (rows : List (List ℚ)) (i : ℕ) : List ℚ := rows.getD i []

/-- `topKSimilar(targetVec, k, exclude)`, identical in both variants:
normalize the query iff the matrix is normalized, score every vocab row
by dot product, sort the indices by descending score (stably), then
collect up to `k` non-excluded words.  The exclusion `Set` only ever
matches string members, so it is modeled as the list of its strings. -/
def topKSimilar (sq : ℚ → ℚ) (vocab : List String) (rows : List (List ℚ))
    (normalized : Bool) (targetVec : List ℚ) (k : ℤ) (exclude : List String) :
    List Nbr :=
  let q := if normalized then normalizeVec sq targetVec else targetVec
  let sims := (List.range vocab.length).map (fun i => dotQ (getRowS rows i) q)
  let idxs := sortKeyDesc (fun i => sims.getD i 0) (List.range vocab.length)
  collectTopK vocab sims k exclude 0 idxs

/-! ### Request values and pair filtering

`req.body.pairs` arrives as JSON, so a pair member can be any JSON
value; the handlers keep a pair only when both members are strings
(`typeof a !== 'string' || typeof b !== 'string'` skips it). -/

/-- A JSON value as far as the handlers inspect one: a string or
something else (number, boolean, null / a missing array slot). -/
inductive JsVal where
  | str (s : String)
  | num (q : ℚ)
  | boolV (b : Bool)
  | undef
  deriving DecidableEq, Repr

/-- `typeof v === 'string'`. -/
def JsVal.isStr : JsVal → Bool
  | .str _ => true
  | _ => false

/-- The string payload of a string value (`""` elsewhere; only applied
under an `isStr` guard). -/
def JsVal.unStr : JsVal → String
  | .str s => s
  | _ => ""

/-- The string members of a JS value list: a `Set.has(w)` test against a
string `w` can only match these, so the exclusion `Set` built from
`pairs.flat()` is modeled by this list. -/
def strMembers (vs : List JsVal) : List String :=
  vs.filterMap (fun v => match v with | .str s => some s | _ => none)

/-- The `pairObjs` loop of both handlers: keep `[a, b]` iff both members
are strings (`continue` otherwise). -/
def filterPairs (pairs : List (JsVal × JsVal)) : List (String × String) :=
  pairs.filterMap (fun ab => match ab with
    | (.str a, .str b) => some (a, b)
    | _ => none)

/-- `flatWords`: the kept pair members in order, then the target — the
exact batch of texts sent to the embedding provider. -/
def flatWordsOf (pairs : List (JsVal × JsVal)) (target : String) : List String :=
  (filterPairs pairs).flatMap (fun ab => [ab.1, ab.2]) ++ [target]

/-! ### AnalogyEngine core (shared by both handler variants)

`embs` is the provider's output for `flatWords` (one vector per text in
order — the provider contract).  Out-of-range accesses are modeled with
`getD` defaults; every theorem that needs real vectors carries the
length hypotheses the provider contract guarantees. -/

/-- `delta[j] = toEmb[j] - fromEmb[j]` for pair `i`
(`fromEmb = embs[2*i]`, `toEmb = embs[2*i+1]`). -/
def deltaOf (dim : ℕ) (fromEmb toEmb : List ℚ) : List ℚ :=
  (List.range dim).map (fun j => toEmb.getD j 0 - fromEmb.getD j 0)

/-- The `deltas` array: one difference vector per kept pair. -/
def deltasOf (dim pairCount : ℕ) (embs : List (List ℚ)) : List (List ℚ) :=
  (List.range pairCount).map (fun i =>
    deltaOf dim (embs.getD (2 * i) []) (embs.getD (2 * i + 1) []))

/-- `avgDelta`: componentwise sum of the deltas into a zero-initialized
`Float32Array(dim)`, divided by `deltas.length` only when it is
positive. -/
def avgDeltaOf (dim pairCount : ℕ) (embs : List (List ℚ)) : List ℚ :=
  let deltas := deltasOf dim pairCount embs
  let summed := deltas.foldl
    (fun acc d => (List.range dim).map (fun j => acc.getD j 0 + d.getD j 0))
    (List.replicate dim (0 : ℚ))
  if pairCount = 0 then summed else summed.map (fun x => x / (pairCount : ℚ))

/-- `targetEmb = embs[embs.length - 1]` (the last provider vector). -/
def targetEmbOf (embs : List (List ℚ)) : List ℚ := embs.getD (embs.length - 1) []

/-- `transformed[j] = targetEmb[j] + avgDelta[j]` (the raw sum). -/
def transformedOf (dim pairCount : ℕ) (embs : List (List ℚ)) : List ℚ :=
  (List.range dim).map (fun j =>
    (targetEmbOf embs).getD j 0 + (avgDeltaOf dim pairCount embs).getD j 0)

/-- V1's `translated = normalized ? normalizeVec(transformed) : transformed`,
which is also V2's `transformedForPCA` when `normalized` is true. -/
def translatedOf (sq : ℚ → ℚ) (normalized : Bool) (dim pairCount : ℕ)
    (embs : List (List ℚ)) : List ℚ :=
  if normalized then normalizeVec sq (transformedOf dim pairCount embs)
  else transformedOf dim pairCount embs

/-! ### ProjectionAdapter -/

/-- A point handed to PCA: `{ id, label, kind, vec }` (V2 additionally
carries the neighbor score along as `_score`; modeled as an `Option`
that is `none` for non-neighbor points). -/
structure PPoint where
  id : String
  label : String
  kind : String
  vec : List ℚ
  pscore : Option ℚ := none
  deriving DecidableEq, Repr, Inhabited

/-- A projected point with coordinates. -/
structure OutPoint where
  id : String
  label : String
  kind : String
  x : ℚ
  y : ℚ
  z : ℚ
  pscore : Option ℚ := none
  deriving DecidableEq, Repr, Inhabited

/-- The external dimensionality-reduction routine
(`new PCA(X) … predict … getExplainedVariance`, spec §1 treats it as a
black box): given the data matrix and a component count it either
returns (projected rows, explained-variance list) or throws. -/
def PcaRun : Type := List (List ℚ) → ℕ → Except String (List (List ℚ) × List ℚ)

/-- V1 `makePCA` (src/server/index.js lines 202-222): no `try`/`catch`,
so a failure of the routine propagates to the caller.  Coordinates use
`Y[i][c] || 0` (missing or zero component → 0). -/
def makePCA_v1 (pcaRun : PcaRun) (pts : List PPoint) :
    Except String (List OutPoint × List ℚ) :=
  if pts.isEmpty then .ok ([], [])
  else
    let X := pts.map (fun p => p.vec)
    let nDims := (X.getD 0 []).length
    let components := max 1 (min 3 nDims)
    match pcaRun X components with
    | .error e => .error e
    | .ok (Y, ev) =>
      .ok ((List.range pts.length).map (fun i =>
        let p := pts.getD i default
        { id := p.id, label := p.label, kind := p.kind,
          x := (Y.getD i []).getD 0 0, y := (Y.getD i []).getD 1 0,
          z := (Y.getD i []).getD 2 0, pscore := p.pscore }),
        ev.take components)

/-- The component count V2 requests:
`Math.min(3, Math.max(1, Math.min(X[0]?.length || 0, points.length)))`. -/
def pcaComponents_v2 (pts : List PPoint) : ℕ :=
  min 3 (max 1 (min (pts.getD 0 default).vec.length pts.length))

/-- V2 `makePCA` (src/unnamed/part_002 lines 220-259): the routine runs
inside `try`/`catch`; on a throw `Y` and `ev` stay empty, an empty `Y`
is replaced by all-zero rows, non-finite/missing coordinates become 0,
and the explained variance is padded to `[ev[0]||0, ev[1]||0, ev[2]||0]`.
Total: it never fails.  (`nComponents ≥ 1` always, so the
`if (nComponents > 0)` guard in the source always passes.) -/
def makePCA_v2 (pcaRun : PcaRun) (pts : List PPoint) :
    List OutPoint × List ℚ :=
  if pts.isEmpty then ([], [0, 0, 0])
  else
    let X := pts.map (fun p => p.vec)
    let ye := match pcaRun X (pcaComponents_v2 pts) with
      | .ok ye => ye
      | .error _ => ([], [])
    let Y := if ye.1.length = 0 then X.map (fun _ => [(0 : ℚ), 0, 0]) else ye.1
    let ev := ye.2
    ((List.range pts.length).map (fun i =>
      let p := pts.getD i default
      { id := p.id, label := p.label, kind := p.kind,
        x := (Y.getD i []).getD 0 0, y := (Y.getD i []).getD 1 0,
        z := (Y.getD i []).getD 2 0, pscore := p.pscore }),
      [ev.getD 0 0, ev.getD 1 0, ev.getD 2 0])

/-! ### Server state and the `/api/search` handlers -/

/-- The module-level globals the search path touches:
`vocab`, `dim`, `matrix` (`null` before the first build), `normalized`. -/
structure ServerState where
  vocab : List String
  dim : ℕ
  matrix : Option (List (List ℚ))
  normalized : Bool
  deriving DecidableEq, Repr

/-- A parsed `/api/search` request body (after the destructuring
defaults have been applied). -/
structure SearchRequest where
  pairs : List (JsVal × JsVal)
  target : String
  k : ℤ
  includeSeeds : Bool
  excludeInputs : Bool
  deriving DecidableEq, Repr

/-- The response fields of V1's `/api/search` that the claims talk
about.  (`transformed` in the JSON is the aligned/`translated` vector,
`transformedRaw` the raw sum; the `seedLinks` echo of point coordinates
carries no claim content and is omitted.) -/
structure RespV1 where
  avgDelta : List ℚ
  targetEmbedding : List ℚ
  transformed : List ℚ
  transformedRaw : List ℚ
  neighbors : List (String × ℚ)
  points : List OutPoint
  explainedVariance : List ℚ
  deriving DecidableEq, Repr

/-- The response fields of V2's `/api/search` (here `transformed` is the
raw sum; V2 sends no separate raw field and its points carry scores only
on neighbor points). -/
structure RespV2 where
  avgDelta : List ℚ
  targetEmbedding : List ℚ
  transformed : List ℚ
  neighbors : List (String × ℚ)
  points : List OutPoint
  explainedVariance : List ℚ
  deriving DecidableEq, Repr

/-- `true` on `Except.ok`: "the request succeeded" (HTTP 200 versus the
handler's `catch` answering 500). -/
def exceptIsOk {α : Type} : Except String α → Bool
  | .ok _ => true
  | .error _ => false

/-- The payload of a successful result (`none` on an error). -/
def exceptValue {α : Type} : Except String α → Option α
  | .ok a => some a
  | .error _ => none

/-- The thrown message (`none` on success). -/
def exceptError {α : Type} : Except String α → Option String
  | .ok _ => none
  | .error e => some e

/-- The exclusion set
`new Set(excludeInputs ? [...pairs.flat(), target] : [])`, as the list
of its string members (only those can match a vocab word). -/
def excludeSetOf (req : SearchRequest) : List String :=
  if req.excludeInputs then
    strMembers ((req.pairs.flatMap (fun ab => [ab.1, ab.2]))) ++ [req.target]
  else []

/-- The seed points pushed when `includeSeeds` is set (same in both
variants): for each kept pair, its two provider embeddings. -/
def seedPointsOf (req : SearchRequest) (embs : List (List ℚ)) : List PPoint :=
  if req.includeSeeds then
    (List.range (filterPairs req.pairs).length).flatMap (fun i =>
      let a := ((filterPairs req.pairs).getD i ("", "")).1
      let b := ((filterPairs req.pairs).getD i ("", "")).2
      [⟨"seed:" ++ a, a, "seedFrom", embs.getD (2 * i) [], none⟩,
       ⟨"seed:" ++ b, b, "seedTo", embs.getD (2 * i + 1) [], none⟩])
  else []

/-- V1 `/api/search` core (src/server/index.js lines 275-399), run after
the matrix is ensured.  The only state writes on this path are inside
`buildOrLoadEmbeddingMatrix`, which this core never calls, so the state
is returned unchanged.  Response scores: `neighborScoreMap.get(id) || null`
maps an absent id — and a score of exactly 0, JS falsiness — to `null`. -/
def searchCore_v1 (sq : ℚ → ℚ) (pcaRun : PcaRun) (st : ServerState)
    (req : SearchRequest) (embs : List (List ℚ)) :
    Except String RespV1 × ServerState :=
  let pairObjs := filterPairs req.pairs
  let dim := st.dim
  let targetEmb := targetEmbOf embs
  let avgDelta := avgDeltaOf dim pairObjs.length embs
  let transformed := transformedOf dim pairObjs.length embs
  let translated := translatedOf sq st.normalized dim pairObjs.length embs
  let rows := st.matrix.getD []
  let neighbors := topKSimilar sq st.vocab rows st.normalized translated req.k
    (excludeSetOf req)
  let pPoints := neighbors.map (fun n =>
      (⟨"neighbor:" ++ n.word, n.word, "neighbor", getRowS rows n.index, none⟩ : PPoint))
    ++ [⟨"target", req.target, "target", targetEmb, none⟩,
        ⟨"predicted", req.target ++ "*", "predicted", translated, none⟩]
    ++ seedPointsOf req embs
  match makePCA_v1 pcaRun pPoints with
  | .error e => (.error e, st)
  | .ok (pts, ev) =>
    let scoreOf := fun (id : String) =>
      match (neighbors.find? (fun n => "neighbor:" ++ n.word == id)).map
          (fun n => n.score) with
      | some sc => if sc = 0 then none else some sc
      | none => none
    (.ok { avgDelta := avgDelta, targetEmbedding := targetEmb,
           transformed := translated, transformedRaw := transformed,
           neighbors := neighbors.map (fun n => (n.word, n.score)),
           points := pts.map (fun p => { p with pscore := scoreOf p.id }),
           explainedVariance := ev }, st)

/-- The error message of V2's provider sanity check. -/
def mismatchMsg (expected got : ℕ) : String :=
  "Embedding count mismatch: expected " ++ toString expected ++ ", got " ++
    toString got

/-- V2 `/api/search` core (src/unnamed/part_002 lines 311-412): after
embedding, V2 checks `embs.length !== flatWords.length` and throws
before using the vectors; the top-k query is the *raw* `transformed`
vector, and only the PCA copy is pre-normalized. -/
def searchCore_v2 (sq : ℚ → ℚ) (pcaRun : PcaRun) (st : ServerState)
    (req : SearchRequest) (embs : List (List ℚ)) :
    Except String RespV2 × ServerState :=
  let pairObjs := filterPairs req.pairs
  let flatWords := flatWordsOf req.pairs req.target
  if embs.length ≠ flatWords.length then
    (.error (mismatchMsg flatWords.length embs.length), st)
  else
    let dim := st.dim
    let avgDelta := avgDeltaOf dim pairObjs.length embs
    let targetEmb := targetEmbOf embs
    let transformed := transformedOf dim pairObjs.length embs
    let rows := st.matrix.getD []
    let neighbors := topKSimilar sq st.vocab rows st.normalized transformed req.k
      (excludeSetOf req)
    let transformedForPCA := normalizeVec sq transformed
    let pPoints := neighbors.map (fun n =>
        (⟨"neighbor:" ++ n.word, n.word, "neighbor", getRowS rows n.index,
          some n.score⟩ : PPoint))
      ++ [⟨"target", req.target, "target", targetEmb, none⟩,
          ⟨"predicted", req.target ++ "*", "predicted", transformedForPCA, none⟩]
      ++ seedPointsOf req embs
    let pe := makePCA_v2 pcaRun pPoints
    (.ok { avgDelta := avgDelta, targetEmbedding := targetEmb,
           transformed := transformed,
           neighbors := neighbors.map (fun n => (n.word, n.score)),
           points := pe.1.map (fun p =>
             { p with pscore := if p.kind = "neighbor" then p.pscore else none }),
           explainedVariance := pe.2 }, st)

/-- The `/api/search` entry of V1: `if (!matrix) await buildOrLoad…`.
The build touches the provider and the disk, so its outcome is the
parameter `buildRes` (the state after a successful build, or the thrown
error); when the matrix is already in memory the build is not run and
`buildRes` is irrelevant. -/
def handleSearch_v1 (sq : ℚ → ℚ) (pcaRun : PcaRun)
    (buildRes : Except String ServerState) (st : ServerState)
    (req : SearchRequest) (embs : List (List ℚ)) :
    Except String RespV1 × ServerState :=
  if st.matrix.isSome then searchCore_v1 sq pcaRun st req embs
  else
    match buildRes with
    | .error e => (.error e, st)
    | .ok st1 => searchCore_v1 sq pcaRun st1 req embs

/-- The `/api/search` entry of V2 (same lazy-build guard). -/
def handleSearch_v2 (sq : ℚ → ℚ) (pcaRun : PcaRun)
    (buildRes : Except String ServerState) (st : ServerState)
    (req : SearchRequest) (embs : List (List ℚ)) :
    Except String RespV2 × ServerState :=
  if st.matrix.isSome then searchCore_v2 sq pcaRun st req embs
  else
    match buildRes with
    | .error e => (.error e, st)
    | .ok st1 => searchCore_v2 sq pcaRun st1 req embs

/-! ### EmbeddingCache: load-versus-rebuild decision

`buildOrLoadEmbeddingMatrix` (identical decision logic in both
variants, V1 lines 133-180 / V2 lines 139-199): compute the fresh
signature, and if `meta.json` and `vocab_embeddings.bin` both exist and
`meta.signature === signature`, adopt the blob as the matrix with
`dim = meta.dim`, `normalized = meta.normalized` — with no further
check that the metadata and the blob agree.  Otherwise re-embed
everything. -/

/-- The persisted `meta.json` record `{ n, dim, normalized, signature }`. -/
structure CacheMeta where
  n : ℕ
  dim : ℕ
  normalized : Bool
  signature : String
  deriving DecidableEq, Repr

/-- What the cache directory holds: whether each of the two files
exists, the parsed metadata, and the binary blob read as 32-bit floats
(`blob.length` = byteLength / 4). -/
structure CacheFs where
  metaExists : Bool
  binExists : Bool
  meta : CacheMeta
  blob : List ℚ
  deriving DecidableEq, Repr

/-- Result of `buildOrLoadEmbeddingMatrix`: either the blob was adopted
(no re-embedding) or a full rebuild ran. -/
inductive CacheOutcome where
  | loaded (flat : List ℚ) (dim : ℕ) (normalized : Bool)
  | rebuilt
  deriving DecidableEq, Repr

/-- The load-versus-rebuild decision (lines 141-152 of V1 / 147-161 of
V2).  Total: on this path no error reaches the caller. -/
def buildOrLoadOutcome (fs : CacheFs) (freshSig : String) : CacheOutcome :=
  if fs.metaExists && fs.binExists && (fs.meta.signature == freshSig) then
    .loaded fs.blob fs.meta.dim fs.meta.normalized
  else .rebuilt

/-- "The metadata agrees with the blob": the blob holds exactly
`n × dim` floats — the property claim C4 asserts is required for a
load. -/
def metaAgreesBlob (fs : CacheFs) : Prop := fs.meta.n * fs.meta.dim = fs.blob.length

/-- The row-normalization pass after a rebuild
(V1 lines 169-175 / V2 lines 185-191): each row is read, normalized and
written back in place; since row `i` is read before it is overwritten
and rows do not alias, the loop is a per-row map. -/
def normalizeRows (sq : ℚ → ℚ) (rows : List (List ℚ)) : List (List ℚ) :=
  rows.map (normalizeVec sq)

/-! ## Theorems -/

/-! ### List helpers -/

/-- Reading every position of a list back with `getD` reproduces it. -/
theorem map_getD_range {α : Type} (d : α) (l : List α) :
    (List.range l.length).map (fun j => l.getD j d) = l := by
  induction l with
  | nil => simp
  | cons x xs ih =>
    rw [List.length_cons, List.range_succ_eq_map, List.map_cons, List.map_map]
    simp only [List.getD_cons_zero, Function.comp_def, Nat.succ_eq_add_one,
      List.getD_cons_succ]
    rw [ih]

/-- `getD` on `replicate` always returns the element (in or out of
range, since the default coincides). -/
theorem getD_replicate_self {α : Type} (d : α) (n j : ℕ) :
    (List.replicate n d).getD j d = d := by
  induction n generalizing j with
  | zero => simp
  | succ m ih =>
    cases j with
    | zero => simp [List.replicate_succ]
    | succ j => simp only [List.replicate_succ, List.getD_cons_succ]; exact ih j

/-- `getD` on a constant-map, in range. -/
theorem getD_map_const {α β : Type} (l : List α) (c d : β) (i : ℕ)
    (h : i < l.length) : (l.map (fun _ => c)).getD i d = c := by
  induction l generalizing i with
  | nil => simp at h
  | cons x xs ih =>
    cases i with
    | zero => simp
    | succ i => simpa using ih i (by simpa using h)

/-- Counting a predicate through `getD` positions equals counting it on
the list itself. -/
theorem countP_range_getD {α : Type} (d : α) (l : List α) (p : α → Bool) :
    (List.range l.length).countP (fun i => p (l.getD i d)) = l.countP p := by
  have h := congrArg (List.countP p) (map_getD_range d l)
  rw [List.countP_map] at h
  exact h

/-! ### The stable descending sort -/

/-- Membership through `ordInsert`. -/
theorem mem_ordInsert (key : ℕ → ℚ) (x : ℕ) :
    ∀ (l : List ℕ) (a : ℕ), a ∈ ordInsert key x l ↔ a = x ∨ a ∈ l := by
  intro l
  induction l with
  | nil => intro a; simp [ordInsert]
  | cons y ys ih =>
    intro a
    simp only [ordInsert]
    by_cases h : key y ≤ key x
    · rw [if_pos h]
      simp [List.mem_cons]
    · rw [if_neg h]
      simp only [List.mem_cons, ih a]
      tauto

/-- `ordInsert` permutes `x :: l`. -/
theorem perm_ordInsert (key : ℕ → ℚ) (x : ℕ) :
    ∀ l : List ℕ, (ordInsert key x l).Perm (x :: l) := by
  intro l
  induction l with
  | nil => simp [ordInsert]
  | cons y ys ih =>
    simp only [ordInsert]
    by_cases h : key y ≤ key x
    · rw [if_pos h]
    · rw [if_neg h]
      exact (ih.cons y).trans (List.Perm.swap x y ys)

/-- Inserting into a descending-sorted list keeps it sorted. -/
theorem pairwise_ordInsert (key : ℕ → ℚ) (x : ℕ) :
    ∀ l : List ℕ, l.Pairwise (fun a b => key b ≤ key a) →
      (ordInsert key x l).Pairwise (fun a b => key b ≤ key a) := by
  intro l
  induction l with
  | nil => intro; simp [ordInsert]
  | cons y ys ih =>
    intro h
    rcases List.pairwise_cons.mp h with ⟨hy, hys⟩
    simp only [ordInsert]
    by_cases hk : key y ≤ key x
    · rw [if_pos hk]
      refine List.pairwise_cons.mpr ⟨?_, h⟩
      intro b hb
      rcases List.mem_cons.mp hb with rfl | hb
      · exact hk
      · exact le_trans (hy b hb) hk
    · rw [if_neg hk]
      refine List.pairwise_cons.mpr ⟨?_, ih hys⟩
      intro b hb
      rcases (mem_ordInsert key x ys b).mp hb with rfl | hb
      · exact le_of_lt (lt_of_not_le hk)
      · exact hy b hb

/-- The modeled JS sort is a permutation of its input. -/
theorem perm_sortKeyDesc (key : ℕ → ℚ) :
    ∀ l : List ℕ, (sortKeyDesc key l).Perm l := by
  intro l
  induction l with
  | nil => simp [sortKeyDesc]
  | cons x xs ih =>
    simpa [sortKeyDesc] using (perm_ordInsert key x (sortKeyDesc key xs)).trans
      (ih.cons x)

/-- The modeled JS sort orders indices by non-increasing key. -/
theorem pairwise_sortKeyDesc (key : ℕ → ℚ) :
    ∀ l : List ℕ, (sortKeyDesc key l).Pairwise (fun a b => key b ≤ key a) := by
  intro l
  induction l with
  | nil => simp [sortKeyDesc]
  | cons x xs ih => exact pairwise_ordInsert key x _ ih

/-! ### The collection walk of `topKSimilar` -/

/-- The collected results are an order-preserving selection (a sublist)
of the walked indices, each mapped to its `{word, score, index}`
record. -/
theorem collectTopK_sublist (vocab : List String) (sims : List ℚ) (k : ℤ)
    (excl : List String) :
    ∀ (l : List ℕ) (cnt : ℕ), ∃ l' : List ℕ, l'.Sublist l ∧
      collectTopK vocab sims k excl cnt l
        = l'.map (fun i => (⟨vocab.getD i "", sims.getD i 0, i⟩ : Nbr)) := by
  intro l
  induction l with
  | nil => intro cnt; exact ⟨[], List.nil_sublist _, rfl⟩
  | cons i rest ih =>
    intro cnt
    by_cases hex : excl.contains (vocab.getD i "")
    · rcases ih cnt with ⟨l', hs, he⟩
      refine ⟨l', hs.cons i, ?_⟩
      simp only [collectTopK]
      rw [if_pos hex]
      exact he
    · by_cases hk : k ≤ (cnt : ℤ) + 1
      · refine ⟨[i], (List.nil_sublist rest).cons₂ i, ?_⟩
        simp only [collectTopK]
        rw [if_neg hex, if_pos hk]
        rfl
      · rcases ih (cnt + 1) with ⟨l', hs, he⟩
        refine ⟨i :: l', hs.cons₂ i, ?_⟩
        simp only [collectTopK]
        rw [if_neg hex, if_neg hk, he]
        rfl

/-- No collected word is in the exclusion list. -/
theorem collectTopK_not_excluded (vocab : List String) (sims : List ℚ) (k : ℤ)
    (excl : List String) :
    ∀ (l : List ℕ) (cnt : ℕ) (nb : Nbr),
      nb ∈ collectTopK vocab sims k excl cnt l →
      excl.contains nb.word = false := by
  intro l
  induction l with
  | nil => intro cnt nb h; simp [collectTopK] at h
  | cons i rest ih =>
    intro cnt nb h
    by_cases hex : excl.contains (vocab.getD i "")
    · rw [show collectTopK vocab sims k excl cnt (i :: rest)
          = collectTopK vocab sims k excl cnt rest by
            simp only [collectTopK]; rw [if_pos hex]] at h
      exact ih cnt nb h
    · by_cases hk : k ≤ (cnt : ℤ) + 1
      · rw [show collectTopK vocab sims k excl cnt (i :: rest)
            = [⟨vocab.getD i "", sims.getD i 0, i⟩] by
              simp only [collectTopK]; rw [if_neg hex, if_pos hk]] at h
        rcases List.mem_singleton.mp h with rfl
        simpa using hex
      · rw [show collectTopK vocab sims k excl cnt (i :: rest)
            = ⟨vocab.getD i "", sims.getD i 0, i⟩
              :: collectTopK vocab sims k excl (cnt + 1) rest by
              simp only [collectTopK]; rw [if_neg hex, if_neg hk]] at h
        rcases List.mem_cons.mp h with rfl | h
        · simpa using hex
        · exact ih (cnt + 1) nb h

/-- Length bound of the walk: at most `max (k - cnt) 1` results are
emitted (the `break` fires only after a push, hence the floor of 1). -/
theorem collectTopK_length_le (vocab : List String) (sims : List ℚ) (k : ℤ)
    (excl : List String) :
    ∀ (l : List ℕ) (cnt : ℕ),
      ((collectTopK vocab sims k excl cnt l).length : ℤ) ≤ max (k - cnt) 1 := by
  intro l
  induction l with
  | nil => intro cnt; simp [collectTopK]
  | cons i rest ih =>
    intro cnt
    simp only [collectTopK]
    by_cases hex : excl.contains (vocab.getD i "")
    · rw [if_pos hex]; exact ih cnt
    · rw [if_neg hex]
      by_cases hk : k ≤ (cnt : ℤ) + 1
      · rw [if_pos hk]; simp
      · rw [if_neg hk]
        have h2 := ih (cnt + 1)
        simp only [List.length_cons]
        push_cast
        push_cast at h2
        omega

/-- Once the stop bound is already reached (`k ≤ cnt + 1`), the walk
emits exactly one result if any non-excluded index remains, else none.
In particular `k ≤ 0` never yields the empty list on a non-excluded
vocabulary. -/
theorem collectTopK_length_stop (vocab : List String) (sims : List ℚ) (k : ℤ)
    (excl : List String) (cnt : ℕ) (hk : k ≤ (cnt : ℤ) + 1) :
    ∀ l : List ℕ,
      (collectTopK vocab sims k excl cnt l).length
        = min 1 (l.countP (fun i => ! excl.contains (vocab.getD i ""))) := by
  intro l
  induction l with
  | nil => simp [collectTopK]
  | cons i rest ih =>
    simp only [collectTopK]
    by_cases hex : excl.contains (vocab.getD i "")
    · rw [if_pos hex, List.countP_cons]
      simp only [hex]
      simpa using ih
    · rw [if_neg hex, if_pos hk, List.countP_cons]
      simp only [hex]
      simp

/-- If `k` exceeds `cnt` plus the number of non-excluded indices left,
the `break` never fires and every non-excluded index is emitted. -/
theorem collectTopK_length_all (vocab : List String) (sims : List ℚ) (k : ℤ)
    (excl : List String) :
    ∀ (l : List ℕ) (cnt : ℕ),
      ((cnt : ℤ) + l.countP (fun i => ! excl.contains (vocab.getD i "")) < k) →
      (collectTopK vocab sims k excl cnt l).length
        = l.countP (fun i => ! excl.contains (vocab.getD i "")) := by
  intro l
  induction l with
  | nil => intro cnt _; simp [collectTopK]
  | cons i rest ih =>
    intro cnt h
    by_cases hex : excl.contains (vocab.getD i "")
    · have hcount : (i :: rest).countP (fun j => ! excl.contains (vocab.getD j ""))
          = rest.countP (fun j => ! excl.contains (vocab.getD j "")) := by
        rw [List.countP_cons, hex]; simp
      rw [hcount] at h ⊢
      simp only [collectTopK]
      rw [if_pos hex]
      exact ih cnt h
    · have hex' : excl.contains (vocab.getD i "") = false := by
        rw [← Bool.not_eq_true]; exact hex
      have hcount : (i :: rest).countP (fun j => ! excl.contains (vocab.getD j ""))
          = rest.countP (fun j => ! excl.contains (vocab.getD j "")) + 1 := by
        rw [List.countP_cons, hex']; simp
      rw [hcount] at h ⊢
      have hk : ¬ k ≤ (cnt : ℤ) + 1 := by push_cast at h; omega
      simp only [collectTopK]
      rw [if_neg hex, if_neg hk, List.length_cons]
      rw [ih (cnt + 1) (by push_cast at h ⊢; omega)]

/-- Complement partition for `countP`. -/
theorem countP_not_add_countP {α : Type} (p : α → Bool) (l : List α) :
    l.countP (fun a => ! p a) + l.countP p = l.length := by
  induction l with
  | nil => simp
  | cons x xs ih =>
    rw [List.countP_cons, List.countP_cons]
    cases hx : p x <;> simp [hx] <;> omega

/-! ### Claim C1 (boundary behavior of `topKSimilar`) -/

/-- **C1, counterexample.**  The claim says `k ≤ 0` yields an empty
list, and that with `k` beyond the available words at most
`vocabularySize - |exclude|` results come back.  On the code, `k = -1`
over a two-word vocabulary returns one result (the `break` fires only
*after* the first push), and with `exclude = {"x"}` (not a vocabulary
word) and `k = 5` the result has 2 entries, exceeding
`vocabularySize - |exclude| = 1`. -/
theorem topKSimilar_boundary_cex :
    (topKSimilar (fun q => q) ["a", "b"] [[1], [2]] false [1] (-1) []).length = 1
    ∧ (topKSimilar (fun q => q) ["a", "b"] [[1], [2]] false [1] 5 ["x"]).length = 2
    ∧ (["a", "b"] : List String).length - (["x"] : List String).length = 1 := by
  with_unfolding_all decide

/-- **C1, amended.**  For every query vector, exclusion list and `k`:
with `k ≤ 0` the result has exactly `min 1 (#non-excluded)` entries
(one entry whenever any non-excluded word exists, never an error); with
`k` larger than the number of non-excluded vocabulary words the result
is exactly the non-excluded words, whose count plus the count of
excluded vocabulary occurrences is the vocabulary size (so at most
`vocabularySize - |exclude ∩ vocabulary|`). -/
theorem topKSimilar_boundary (sq : ℚ → ℚ) (vocab : List String)
    (rows : List (List ℚ)) (normalized : Bool) (t : List ℚ) (k : ℤ)
    (excl : List String) :
    (k ≤ 0 → (topKSimilar sq vocab rows normalized t k excl).length
        = min 1 (vocab.countP (fun w => ! excl.contains w)))
    ∧ ((vocab.countP (fun w => ! excl.contains w) : ℤ) < k →
        (topKSimilar sq vocab rows normalized t k excl).length
            = vocab.countP (fun w => ! excl.contains w)
        ∧ vocab.countP (fun w => ! excl.contains w)
            + vocab.countP (fun w => excl.contains w) = vocab.length) := by
  simp only [topKSimilar]
  have hperm := perm_sortKeyDesc
    (fun i => ((List.range vocab.length).map (fun i => dotQ (getRowS rows i)
      (if normalized then normalizeVec sq t else t))).getD i 0)
    (List.range vocab.length)
  have hcount :
      (sortKeyDesc (fun i => ((List.range vocab.length).map
          (fun i => dotQ (getRowS rows i)
            (if normalized then normalizeVec sq t else t))).getD i 0)
        (List.range vocab.length)).countP
          (fun i => ! excl.contains (vocab.getD i ""))
        = vocab.countP (fun w => ! excl.contains w) := by
    rw [hperm.countP_eq]
    exact countP_range_getD "" vocab (fun w => ! excl.contains w)
  constructor
  · intro hk
    rw [collectTopK_length_stop _ _ _ _ 0 (by omega), hcount]
  · intro h
    refine ⟨?_, ?_⟩
    · rw [collectTopK_length_all _ _ _ _ _ 0 (by rw [hcount]; push_cast; omega),
        hcount]
    · exact countP_not_add_countP (fun w => excl.contains w) vocab

/-- **C1, witness.** -/
theorem topKSimilar_boundary_witness :
    (topKSimilar (fun q => q) ["a", "b"] [[1], [2]] false [1] (-3) ["a"]).length
      = min 1 ((["a", "b"] : List String).countP (fun w => ! ["a"].contains w))
    ∧ (topKSimilar (fun q => q) ["a", "b"] [[1], [2]] false [1] 7 ["a"]).length
      = (["a", "b"] : List String).countP (fun w => ! ["a"].contains w) :=
  ⟨(topKSimilar_boundary (fun q => q) ["a", "b"] [[1], [2]] false [1] (-3)
      ["a"]).1 (by norm_num),
   ((topKSimilar_boundary (fun q => q) ["a", "b"] [[1], [2]] false [1] 7
      ["a"]).2 (by with_unfolding_all decide)).1⟩

/-! ### Claim C2 (top-k contract of `topKSimilar`) -/

/-- **C2, counterexample.**  "`len(result) ≤ k` for every integer `k`"
fails at `k = 0`: the loop pushes one result before checking the
bound. -/
theorem topKSimilar_contract_cex :
    (topKSimilar (fun q => q) ["a"] [[1]] false [1] 0 []).length = 1 := by
  with_unfolding_all decide

/-- **C2, amended.**  For every query vector, integer `k` and exclusion
list: the result length is at most `max k 1` (so at most `k` whenever
`k ≥ 1`; for `k ≤ 0` one entry can appear), the result is sorted by
non-increasing score, and no excluded word appears. -/
theorem topKSimilar_contract (sq : ℚ → ℚ) (vocab : List String)
    (rows : List (List ℚ)) (normalized : Bool) (t : List ℚ) (k : ℤ)
    (excl : List String) :
    ((topKSimilar sq vocab rows normalized t k excl).length : ℤ) ≤ max k 1
    ∧ (topKSimilar sq vocab rows normalized t k excl).Pairwise
        (fun a b => b.score ≤ a.score)
    ∧ ∀ nb ∈ topKSimilar sq vocab rows normalized t k excl,
        excl.contains nb.word = false := by
  refine ⟨?_, ?_, ?_⟩
  · simp only [topKSimilar]
    have h := collectTopK_length_le vocab
      ((List.range vocab.length).map (fun i => dotQ (getRowS rows i)
        (if normalized then normalizeVec sq t else t))) k excl
      (sortKeyDesc (fun i => ((List.range vocab.length).map
        (fun i => dotQ (getRowS rows i)
          (if normalized then normalizeVec sq t else t))).getD i 0)
        (List.range vocab.length)) 0
    simpa using h
  · simp only [topKSimilar]
    obtain ⟨l', hsub, heq⟩ := collectTopK_sublist vocab
      ((List.range vocab.length).map (fun i => dotQ (getRowS rows i)
        (if normalized then normalizeVec sq t else t))) k excl
      (sortKeyDesc (fun i => ((List.range vocab.length).map
        (fun i => dotQ (getRowS rows i)
          (if normalized then normalizeVec sq t else t))).getD i 0)
        (List.range vocab.length)) 0
    rw [heq]
    refine List.pairwise_map.mpr ?_
    exact List.Pairwise.sublist hsub (pairwise_sortKeyDesc _ _)
  · intro nb h
    exact collectTopK_not_excluded vocab _ k excl _ 0 nb h

/-- **C2, witness.** -/
theorem topKSimilar_contract_witness :
    ["b"].contains (Nbr.word ⟨"a", 1, 0⟩) = false :=
  (topKSimilar_contract (fun q => q) ["a", "b"] [[1], [2]] false [1] 2
    ["b"]).2.2 ⟨"a", 1, 0⟩ (by with_unfolding_all decide)

/-! ### Normalization lemmas -/

theorem sumSq_nil : sumSq [] = 0 := rfl

theorem sumSq_cons (x : ℚ) (v : List ℚ) : sumSq (x :: v) = x * x + sumSq v := by
  simp [sumSq]

theorem sumSq_nonneg (v : List ℚ) : 0 ≤ sumSq v := by
  induction v with
  | nil => simp [sumSq_nil]
  | cons x xs ih =>
    rw [sumSq_cons]
    exact add_nonneg (mul_self_nonneg x) ih

theorem sumSq_eq_zero {v : List ℚ} (h : sumSq v = 0) : ∀ x ∈ v, x = 0 := by
  induction v with
  | nil => simp
  | cons y ys ih =>
    rw [sumSq_cons] at h
    have h1 : y * y = 0 := by
      have := sumSq_nonneg ys
      have := mul_self_nonneg y
      linarith
    have h2 : sumSq ys = 0 := by linarith [mul_self_nonneg y]
    intro x hx
    rcases List.mem_cons.mp hx with rfl | hx
    · exact mul_self_eq_zero.mp h1
    · exact ih h2 x hx

/-- A square root of `1` is `1`. -/
theorem IsSqrtAt.one_eq {sq : ℚ → ℚ} (h : IsSqrtAt sq 1) : sq 1 = 1 := by
  rcases h with ⟨hpos, hsq⟩
  have hfac : (sq 1 - 1) * (sq 1 + 1) = 0 := by linear_combination hsq
  rcases mul_eq_zero.mp hfac with h1 | h1
  · linarith
  · linarith

/-- On a vector of zero norm, `normalizeVec` divides by the guard `1`
and returns its argument unchanged. -/
theorem normalizeVec_of_sumSq_zero (sq : ℚ → ℚ) {v : List ℚ}
    (h0 : IsSqrtAt sq 0) (h : sumSq v = 0) : normalizeVec sq v = v := by
  have hz : sq 0 = 0 := mul_self_eq_zero.mp h0.2
  simp only [normalizeVec, h, hz, if_pos]
  simp

theorem sumSq_map_div (v : List ℚ) (c : ℚ) :
    sumSq (v.map (fun x => x / c)) = sumSq v / (c * c) := by
  induction v with
  | nil => simp [sumSq_nil]
  | cons x xs ih =>
    rw [List.map_cons, sumSq_cons, sumSq_cons, ih, div_mul_div_comm, ← add_div]

/-- On a vector of nonzero norm (with a genuine square root at its
`sumSq`), `normalizeVec` produces a unit vector. -/
theorem sumSq_normalizeVec (sq : ℚ → ℚ) {v : List ℚ}
    (h : IsSqrtAt sq (sumSq v)) (hne : sumSq v ≠ 0) :
    sumSq (normalizeVec sq v) = 1 := by
  have hsq : sq (sumSq v) ≠ 0 := by
    intro hz
    exact hne (by rw [← h.2, hz, mul_zero])
  simp only [normalizeVec, if_neg hsq]
  rw [sumSq_map_div, h.2]
  exact div_self hne

/-- A vector already of unit norm passes through `normalizeVec`
unchanged (given `sq 1 = 1`). -/
theorem normalizeVec_of_sumSq_one (sq : ℚ → ℚ) {v : List ℚ}
    (h1 : sq 1 = 1) (h : sumSq v = 1) : normalizeVec sq v = v := by
  simp only [normalizeVec, h, h1, one_ne_zero, if_neg]
  simp

/-- Normalization is idempotent (pointwise square-root facts at
`sumSq v` and at `1` suffice). -/
theorem normalizeVec_idem (sq : ℚ → ℚ) {v : List ℚ}
    (h : IsSqrtAt sq (sumSq v)) (h1 : IsSqrtAt sq 1) :
    normalizeVec sq (normalizeVec sq v) = normalizeVec sq v := by
  by_cases hz : sumSq v = 0
  · have h0 : IsSqrtAt sq 0 := hz ▸ h
    rw [normalizeVec_of_sumSq_zero sq h0 hz]
    exact normalizeVec_of_sumSq_zero sq h0 hz
  · exact normalizeVec_of_sumSq_one sq h1.one_eq (sumSq_normalizeVec sq h hz)

/-! ### Claim C8 (normalizeVec totality and row normalization) -/

/-- **C8.**  `normalizeVec` never divides by zero: on an input of
exactly zero Euclidean norm (equivalently `sumSq = 0`) it returns its
argument — the zero vector — unchanged, and after the build's
row-normalization pass every row of nonzero norm has unit Euclidean
norm (`sumSq = 1`).  The square root is the runtime's; the pointwise
`IsSqrtAt` hypotheses record that it is exact at the needed inputs. -/
theorem normalizeVec_safety (sq : ℚ → ℚ) (v : List ℚ) (rows : List (List ℚ)) :
    (IsSqrtAt sq 0 → sumSq v = 0 → normalizeVec sq v = v ∧ ∀ x ∈ v, x = 0)
    ∧ ((∀ r ∈ rows, IsSqrtAt sq (sumSq r)) →
        ∀ r' ∈ normalizeRows sq rows, sumSq r' ≠ 0 → sumSq r' = 1) := by
  constructor
  · intro h0 hz
    exact ⟨normalizeVec_of_sumSq_zero sq h0 hz, sumSq_eq_zero hz⟩
  · intro hr r' hr' hne
    rcases List.mem_map.mp hr' with ⟨r, hmem, rfl⟩
    by_cases hz : sumSq r = 0
    · exfalso
      apply hne
      rw [normalizeVec_of_sumSq_zero sq (hz ▸ hr r hmem) hz]
      exact hz
    · exact sumSq_normalizeVec sq (hr r hmem) hz

/-- **C8, witness.** -/
theorem normalizeVec_safety_witness :
    normalizeVec (fun q => if q = 25 then 5 else 0) [0, 0] = [0, 0]
    ∧ sumSq (normalizeVec (fun q => if q = 25 then 5 else 0) [3, 4]) = 1 :=
  ⟨((normalizeVec_safety (fun q => if q = 25 then 5 else 0) [0, 0]
      [[3, 4], [0, 0]]).1 (by with_unfolding_all decide)
      (by with_unfolding_all decide)).1,
   (normalizeVec_safety (fun q => if q = 25 then 5 else 0) [0, 0]
      [[3, 4], [0, 0]]).2 (by with_unfolding_all decide)
      (normalizeVec (fun q => if q = 25 then 5 else 0) [3, 4])
      (by with_unfolding_all decide) (by with_unfolding_all decide)⟩

/-! ### Claim C9 (the two query conventions agree) -/

/-- **C9.**  With a unit-normalized matrix (`normalized = true`),
feeding `topKSimilar` the pre-normalized translated vector (V1) and
feeding it the raw transformed sum (V2) give identical neighbor lists
and scores: `topKSimilar` normalizes its query internally and
normalization is idempotent. -/
theorem query_convention_equiv (sq : ℚ → ℚ) (vocab : List String)
    (rows : List (List ℚ)) (t : List ℚ) (k : ℤ) (excl : List String)
    (h : IsSqrtAt sq (sumSq t)) (h1 : IsSqrtAt sq 1) :
    topKSimilar sq vocab rows true (normalizeVec sq t) k excl
      = topKSimilar sq vocab rows true t k excl := by
  simp [topKSimilar, normalizeVec_idem sq h h1]

/-- **C9, witness.** -/
theorem query_convention_equiv_witness :
    topKSimilar (fun q => if q = 25 then 5 else if q = 1 then 1 else 0)
      ["a", "b"] [[1, 0], [0, 1]] true
      (normalizeVec (fun q => if q = 25 then 5 else if q = 1 then 1 else 0)
        [3, 4]) 1 []
    = topKSimilar (fun q => if q = 25 then 5 else if q = 1 then 1 else 0)
      ["a", "b"] [[1, 0], [0, 1]] true [3, 4] 1 [] :=
  query_convention_equiv _ ["a", "b"] [[1, 0], [0, 1]] [3, 4] 1 []
    (by with_unfolding_all decide) (by with_unfolding_all decide)

/-! ### Claim C6 (zero pairs yield the bare normalized target) -/

/-- **C6.**  When the pair list is empty or every entry was skipped
(`filterPairs pairs = []`), the average delta is the zero vector and the
translated query vector is exactly the normalized embedding of the
target alone (exact equality here; the source's "floating tolerance" is
the ℚ-model's equality). -/
theorem zero_pairs_identity (sq : ℚ → ℚ) (dim : ℕ)
    (pairs : List (JsVal × JsVal)) (embs : List (List ℚ))
    (hp : filterPairs pairs = []) (ht : (targetEmbOf embs).length = dim) :
    avgDeltaOf dim (filterPairs pairs).length embs = List.replicate dim 0
    ∧ translatedOf sq true dim (filterPairs pairs).length embs
        = normalizeVec sq (targetEmbOf embs) := by
  rw [hp]
  have h0 : avgDeltaOf dim ([] : List (String × String)).length embs
      = List.replicate dim 0 := by
    simp [avgDeltaOf, deltasOf]
  have htr : transformedOf dim ([] : List (String × String)).length embs
      = targetEmbOf embs := by
    unfold transformedOf
    rw [show ([] : List (String × String)).length = 0 from rfl] at h0 ⊢
    rw [h0]
    have hmap : (List.range dim).map
        (fun j => (targetEmbOf embs).getD j 0 + (List.replicate dim (0:ℚ)).getD j 0)
        = (List.range dim).map (fun j => (targetEmbOf embs).getD j 0) := by
      apply List.map_congr_left
      intro j _
      rw [getD_replicate_self, add_zero]
    rw [hmap, ← ht, map_getD_range]
  refine ⟨h0, ?_⟩
  simp only [translatedOf, if_true]
  rw [htr]

/-- **C6, witness** (an entirely-skipped pair list: one malformed
entry). -/
theorem zero_pairs_identity_witness :
    avgDeltaOf 2 (filterPairs [(JsVal.num 1, JsVal.str "a")]).length [[3, 4]]
      = List.replicate 2 0
    ∧ translatedOf (fun q => if q = 25 then 5 else q) true 2
        (filterPairs [(JsVal.num 1, JsVal.str "a")]).length [[3, 4]]
      = normalizeVec (fun q => if q = 25 then 5 else q) (targetEmbOf [[3, 4]]) :=
  zero_pairs_identity (fun q => if q = 25 then 5 else q) 2
    [(JsVal.num 1, JsVal.str "a")] [[3, 4]]
    (by with_unfolding_all decide) (by with_unfolding_all decide)

/-! ### Claim C4 (cache load condition) -/

/-- **C4, counterexample.**  A cache state whose metadata signature
matches the fresh signature but whose blob length (1 float) disagrees
with `meta.n × meta.dim = 6` is still loaded — the code never compares
the metadata with the blob. -/
theorem cache_load_cex :
    buildOrLoadOutcome ⟨true, true, ⟨2, 3, true, "sig"⟩, [1]⟩ "sig"
      = CacheOutcome.loaded [1] 3 true
    ∧ ¬ metaAgreesBlob ⟨true, true, ⟨2, 3, true, "sig"⟩, [1]⟩ := by
  refine ⟨rfl, ?_⟩
  intro h
  simp [metaAgreesBlob] at h

/-- **C4, amended.**  A persisted cache load succeeds — the blob is
adopted verbatim together with `meta.dim` and `meta.normalized` —
exactly when both files exist and `metadata.signature` equals the
freshly computed signature; no metadata/blob agreement is checked.  Any
mismatch or missing file yields a full rebuild; the decision itself is
total (no error surfaces on this path). -/
theorem cache_load_condition (fs : CacheFs) (sig : String) :
    (buildOrLoadOutcome fs sig
        = CacheOutcome.loaded fs.blob fs.meta.dim fs.meta.normalized
      ∨ buildOrLoadOutcome fs sig = CacheOutcome.rebuilt)
    ∧ (buildOrLoadOutcome fs sig ≠ CacheOutcome.rebuilt
        ↔ fs.metaExists = true ∧ fs.binExists = true ∧ fs.meta.signature = sig) := by
  unfold buildOrLoadOutcome
  by_cases h : (fs.metaExists && fs.binExists && (fs.meta.signature == sig)) = true
  · rw [if_pos h]
    simp only [Bool.and_eq_true, beq_iff_eq] at h
    constructor
    · left; rfl
    · constructor
      · intro _
        exact ⟨h.1.1, h.1.2, h.2⟩
      · intro _ hcon
        cases hcon
  · rw [if_neg h]
    constructor
    · right; rfl
    · constructor
      · intro hcon
        exact absurd rfl hcon
      · rintro ⟨h1, h2, h3⟩
        exact absurd (by simp [h1, h2, h3]) h

/-! ### Claim C5 (provider count mismatch) -/

/-- **C5, counterexample.**  V1 performs no count check: with one kept
pair and a target (3 texts) but only 2 provider vectors, the request
succeeds — `targetEmb` silently aliases the last pair vector and the
search proceeds with misaligned embeddings.  (All array accesses are
in bounds at this input, so the JS run also completes.) -/
theorem provider_mismatch_cex :
    exceptIsOk (handleSearch_v1 (fun q => q)
      (fun X _ => .ok (X.map (fun _ => [0, 0, 0]), [1]))
      (.ok ⟨[], 0, none, false⟩)
      ⟨["a", "b"], 1, some [[1], [0]], false⟩
      ⟨[(.str "x", .str "y")], "t", 1, false, true⟩ [[1], [2]]).1 = true
    ∧ ([[1], [2]] : List (List ℚ)).length
        ≠ (flatWordsOf [(JsVal.str "x", JsVal.str "y")] "t").length := by
  with_unfolding_all decide

/-- **C5, amended.**  In the V2 variant, whenever the provider returns
a number of vectors different from the number of input texts, the
request fails with the `Embedding count mismatch` error and the state
(including the cached matrix) is untouched.  The V1 variant has no such
check and can proceed with misaligned embeddings (counterexample). -/
theorem provider_count_check (sq : ℚ → ℚ) (pcaRun : PcaRun)
    (b : Except String ServerState) (st : ServerState) (req : SearchRequest)
    (embs : List (List ℚ)) (hm : st.matrix.isSome = true)
    (hc : embs.length ≠ (flatWordsOf req.pairs req.target).length) :
    (handleSearch_v2 sq pcaRun b st req embs).1
      = .error (mismatchMsg (flatWordsOf req.pairs req.target).length embs.length)
    ∧ (handleSearch_v2 sq pcaRun b st req embs).2 = st := by
  simp only [handleSearch_v2, hm, if_true]
  simp only [searchCore_v2]
  rw [if_pos hc]
  exact ⟨rfl, rfl⟩

/-- **C5, witness.** -/
theorem provider_count_check_witness :
    (handleSearch_v2 (fun q => q) (fun _ _ => .error "x")
      (.ok ⟨[], 0, none, false⟩) ⟨["a"], 1, some [[1]], false⟩
      ⟨[], "t", 1, false, false⟩ []).1
      = .error (mismatchMsg (flatWordsOf [] "t").length
          ([] : List (List ℚ)).length)
    ∧ (handleSearch_v2 (fun q => q) (fun _ _ => .error "x")
      (.ok ⟨[], 0, none, false⟩) ⟨["a"], 1, some [[1]], false⟩
      ⟨[], "t", 1, false, false⟩ []).2 = ⟨["a"], 1, some [[1]], false⟩ :=
  provider_count_check (fun q => q) (fun _ _ => .error "x")
    (.ok ⟨[], 0, none, false⟩) ⟨["a"], 1, some [[1]], false⟩
    ⟨[], "t", 1, false, false⟩ [] (by rfl) (by with_unfolding_all decide)

/-! ### Claim C10 (search answers against the in-memory matrix) -/

/-- The V1 search core never writes the globals. -/
theorem searchCore_v1_state (sq : ℚ → ℚ) (pcaRun : PcaRun) (st : ServerState)
    (req : SearchRequest) (embs : List (List ℚ)) :
    (searchCore_v1 sq pcaRun st req embs).2 = st := by
  simp only [searchCore_v1]
  split <;> rfl

/-- The V2 search core never writes the globals. -/
theorem searchCore_v2_state (sq : ℚ → ℚ) (pcaRun : PcaRun) (st : ServerState)
    (req : SearchRequest) (embs : List (List ℚ)) :
    (searchCore_v2 sq pcaRun st req embs).2 = st := by
  simp only [searchCore_v2]
  split <;> rfl

/-- **C10.**  While a matrix is in memory, both variants answer a
search against that matrix with the build path never taken — the result
does not depend on what a build would have produced (no signature check
or rebuild occurs, whatever the request's `contextTemplate`) — and the
state (matrix, dimension, normalized flag, vocabulary) is returned
unchanged. -/
theorem search_frame (sq : ℚ → ℚ) (pcaRun : PcaRun) (st : ServerState)
    (req : SearchRequest) (embs : List (List ℚ))
    (h : st.matrix.isSome = true) :
    (∀ b b' : Except String ServerState,
      handleSearch_v1 sq pcaRun b st req embs
        = handleSearch_v1 sq pcaRun b' st req embs)
    ∧ (∀ b, (handleSearch_v1 sq pcaRun b st req embs).2 = st)
    ∧ (∀ b b' : Except String ServerState,
      handleSearch_v2 sq pcaRun b st req embs
        = handleSearch_v2 sq pcaRun b' st req embs)
    ∧ (∀ b, (handleSearch_v2 sq pcaRun b st req embs).2 = st) := by
  refine ⟨?_, ?_, ?_, ?_⟩
  · intro b b'
    simp [handleSearch_v1, h]
  · intro b
    simp only [handleSearch_v1, h, if_true]
    exact searchCore_v1_state sq pcaRun st req embs
  · intro b b'
    simp [handleSearch_v2, h]
  · intro b
    simp only [handleSearch_v2, h, if_true]
    exact searchCore_v2_state sq pcaRun st req embs

/-- **C10, witness.** -/
theorem search_frame_witness :
    (handleSearch_v1 (fun q => q) (fun _ _ => .error "x") (.error "boom")
      ⟨["a"], 1, some [[1]], false⟩ ⟨[], "t", 1, false, false⟩ [[1]]).2
      = ⟨["a"], 1, some [[1]], false⟩ :=
  (search_frame (fun q => q) (fun _ _ => .error "x")
    ⟨["a"], 1, some [[1]], false⟩ ⟨[], "t", 1, false, false⟩ [[1]]
    (by rfl)).2.1 (.error "boom")

/-! ### Claim C7 (malformed pairs are dropped, request still succeeds) -/

/-- V1's `makePCA` succeeds whenever the routine does. -/
theorem makePCA_v1_isOk (pcaRun : PcaRun)
    (hpca : ∀ X n, exceptIsOk (pcaRun X n) = true) (pts : List PPoint) :
    exceptIsOk (makePCA_v1 pcaRun pts) = true := by
  simp only [makePCA_v1]
  by_cases he : pts.isEmpty
  · rw [if_pos he]; rfl
  · rw [if_neg he]
    split
    · next e heq =>
      have h2 := hpca (pts.map fun p => p.vec)
        (max 1 (min 3 ((pts.map fun p => p.vec).getD 0 []).length))
      rw [heq] at h2
      simp [exceptIsOk] at h2
    · rfl

/-- V1's search core succeeds whenever the PCA routine does (the only
failure point the core has). -/
theorem searchCore_v1_isOk (sq : ℚ → ℚ) (pcaRun : PcaRun) (st : ServerState)
    (req : SearchRequest) (embs : List (List ℚ))
    (hpca : ∀ X n, exceptIsOk (pcaRun X n) = true) :
    exceptIsOk (searchCore_v1 sq pcaRun st req embs).1 = true := by
  simp only [searchCore_v1]
  split
  · next e heq =>
    have h2 := makePCA_v1_isOk pcaRun hpca
      ((topKSimilar sq st.vocab (st.matrix.getD []) st.normalized
        (translatedOf sq st.normalized st.dim (filterPairs req.pairs).length embs)
        req.k (excludeSetOf req)).map (fun n =>
          (⟨"neighbor:" ++ n.word, n.word, "neighbor",
            getRowS (st.matrix.getD []) n.index, none⟩ : PPoint))
        ++ [⟨"target", req.target, "target", targetEmbOf embs, none⟩,
            ⟨"predicted", req.target ++ "*", "predicted",
              translatedOf sq st.normalized st.dim
                (filterPairs req.pairs).length embs, none⟩]
        ++ seedPointsOf req embs)
    rw [heq] at h2
    simp [exceptIsOk] at h2
  · rfl

/-- **C7.**  The kept pairs are exactly the entries whose two members
are strings (in order) — malformed entries are dropped from the delta
computation, which only sees `filterPairs` — and a request containing
malformed entries is still processed to a successful result: V2 answers
200 whenever the provider count check passes, and V1 whenever the PCA
routine succeeds. -/
theorem malformed_pairs_tolerated :
    (∀ pairs : List (JsVal × JsVal),
      filterPairs pairs
        = (pairs.filter (fun ab => ab.1.isStr && ab.2.isStr)).map
            (fun ab => (ab.1.unStr, ab.2.unStr)))
    ∧ (∀ (sq : ℚ → ℚ) (pcaRun : PcaRun) (b : Except String ServerState)
        (st : ServerState) (req : SearchRequest) (embs : List (List ℚ)),
        st.matrix.isSome = true →
        embs.length = (flatWordsOf req.pairs req.target).length →
        exceptIsOk (handleSearch_v2 sq pcaRun b st req embs).1 = true)
    ∧ (∀ (sq : ℚ → ℚ) (pcaRun : PcaRun) (b : Except String ServerState)
        (st : ServerState) (req : SearchRequest) (embs : List (List ℚ)),
        st.matrix.isSome = true →
        (∀ X n, exceptIsOk (pcaRun X n) = true) →
        exceptIsOk (handleSearch_v1 sq pcaRun b st req embs).1 = true) := by
  refine ⟨?_, ?_, ?_⟩
  · intro pairs
    induction pairs with
    | nil => rfl
    | cons ab rest ih =>
      rcases ab with ⟨a, b⟩
      cases a <;> cases b <;>
        simp [filterPairs, List.filterMap_cons, List.filter_cons,
          JsVal.isStr, JsVal.unStr] <;>
        simpa [filterPairs] using ih
  · intro sq pcaRun b st req embs hm hc
    simp only [handleSearch_v2, hm, if_true]
    simp only [searchCore_v2]
    rw [if_neg (fun hne => hne hc)]
    rfl
  · intro sq pcaRun b st req embs hm hpca
    simp only [handleSearch_v1, hm, if_true]
    exact searchCore_v1_isOk sq pcaRun st req embs hpca

/-- **C7, witness** (a request with one malformed and one well-formed
pair). -/
theorem malformed_pairs_tolerated_witness :
    filterPairs [(JsVal.str "a", JsVal.num 7), (JsVal.str "b", JsVal.str "c")]
      = [("b", "c")]
    ∧ exceptIsOk (handleSearch_v2 (fun q => q) (fun _ _ => .error "boom")
        (.ok ⟨[], 0, none, false⟩) ⟨["a"], 1, some [[1]], false⟩
        ⟨[(.str "a", .num 7), (.str "b", .str "c")], "t", 1, false, true⟩
        [[1], [2], [3]]).1 = true :=
  ⟨(malformed_pairs_tolerated.1
      [(JsVal.str "a", JsVal.num 7), (JsVal.str "b", JsVal.str "c")]).trans
      (by with_unfolding_all decide),
   malformed_pairs_tolerated.2.1 (fun q => q) (fun _ _ => .error "boom")
      (.ok ⟨[], 0, none, false⟩) ⟨["a"], 1, some [[1]], false⟩
      ⟨[(.str "a", .num 7), (.str "b", .str "c")], "t", 1, false, true⟩
      [[1], [2], [3]] (by rfl) (by with_unfolding_all decide)⟩

/-! ### Claim C3 (graceful degradation on projection failure) -/

/-- **C3, counterexample.**  In the V1 variant `makePCA` has no
`try`/`catch`: a failing dimensionality-reduction routine aborts the
whole request with an error instead of degrading to zero coordinates. -/
theorem pca_failure_cex :
    exceptError (handleSearch_v1 (fun q => q) (fun _ _ => .error "degenerate")
      (.ok ⟨[], 0, none, false⟩) ⟨["a"], 1, some [[1]], false⟩
      ⟨[], "t", 1, false, false⟩ [[1]]).1 = some "degenerate" := by
  with_unfolding_all decide

/-- Every coordinate read out of the all-zero fallback rows is `0`
(in or out of range). -/
theorem getD_map_triple (X : List (List ℚ)) (i c : ℕ) :
    ((X.map (fun _ => [(0 : ℚ), 0, 0])).getD i []).getD c 0 = 0 := by
  by_cases h : i < X.length
  · rw [getD_map_const X _ _ _ (by simpa using h)]
    rcases c with _ | _ | _ | c <;> rfl
  · have h2 : (X.map (fun _ => [(0 : ℚ), 0, 0])).getD i [] = [] :=
      List.getD_eq_default _ _ (by simpa using le_of_not_lt h)
    rw [h2]
    rfl

/-- On a throwing routine, V2's `makePCA` returns the points with
all-zero coordinates and `[0,0,0]` explained variance. -/
theorem makePCA_v2_error (pcaRun : PcaRun) (pts : List PPoint) (msg : String)
    (hfail : pcaRun (pts.map (fun p => p.vec)) (pcaComponents_v2 pts)
      = .error msg) :
    makePCA_v2 pcaRun pts
      = ((List.range pts.length).map (fun i =>
          { id := (pts.getD i default).id, label := (pts.getD i default).label,
            kind := (pts.getD i default).kind, x := 0, y := 0, z := 0,
            pscore := (pts.getD i default).pscore }), [0, 0, 0]) := by
  by_cases he : pts.isEmpty
  · have hnil : pts = [] := List.isEmpty_iff.mp he
    subst hnil
    rfl
  · simp only [makePCA_v2, if_neg he, hfail, List.length_nil, reduceIte]
    congr 1
    apply List.map_congr_left
    intro i _
    simp only [OutPoint.mk.injEq, getD_map_triple]

/-- **C3, amended.**  In the V2 variant the claim holds: when the
routine throws, every visualization point gets all-zero coordinates and
the explained variance is `[0,0,0]`, while the request succeeds and its
neighbor list is exactly the pre-projection top-k ranking, for *any*
routine outcome.  In the V1 variant the failure propagates and the
request errors (counterexample). -/
theorem pca_failure_graceful :
    (∀ (pcaRun : PcaRun) (pts : List PPoint) (msg : String),
      pcaRun (pts.map (fun p => p.vec)) (pcaComponents_v2 pts) = .error msg →
      (∀ p ∈ (makePCA_v2 pcaRun pts).1, p.x = 0 ∧ p.y = 0 ∧ p.z = 0)
      ∧ (makePCA_v2 pcaRun pts).2 = [0, 0, 0])
    ∧ (∀ (sq : ℚ → ℚ) (pcaRun : PcaRun) (b : Except String ServerState)
        (st : ServerState) (req : SearchRequest) (embs : List (List ℚ)),
        st.matrix.isSome = true →
        embs.length = (flatWordsOf req.pairs req.target).length →
        (exceptValue (handleSearch_v2 sq pcaRun b st req embs).1).map
            (fun r => r.neighbors)
          = some ((topKSimilar sq st.vocab (st.matrix.getD []) st.normalized
              (transformedOf st.dim (filterPairs req.pairs).length embs)
              req.k (excludeSetOf req)).map (fun n => (n.word, n.score)))) := by
  constructor
  · intro pcaRun pts msg hfail
    rw [makePCA_v2_error pcaRun pts msg hfail]
    refine ⟨?_, rfl⟩
    intro p hp
    rcases List.mem_map.mp hp with ⟨i, hi, rfl⟩
    exact ⟨rfl, rfl, rfl⟩
  · intro sq pcaRun b st req embs hm hc
    simp only [handleSearch_v2, hm, if_true]
    simp only [searchCore_v2]
    rw [if_neg (fun hne => hne hc)]
    rfl

/-- **C3, witness.** -/
theorem pca_failure_graceful_witness :
    (makePCA_v2 (fun _ _ => .error "degenerate")
        [⟨"target", "t", "target", [1], none⟩]).2 = [0, 0, 0]
    ∧ (exceptValue (handleSearch_v2 (fun q => q)
        (fun _ _ => .error "degenerate") (.ok ⟨[], 0, none, false⟩)
        ⟨["a"], 1, some [[1]], false⟩ ⟨[], "t", 1, false, false⟩ [[1]]).1).map
          (fun r => r.neighbors)
      = some ((topKSimilar (fun q => q) ["a"] [[1]] false
          (transformedOf 1 (filterPairs []).length [[1]]) 1
          (excludeSetOf ⟨[], "t", 1, false, false⟩)).map
            (fun n => (n.word, n.score))) :=
  ⟨(pca_failure_graceful.1 (fun _ _ => .error "degenerate")
      [⟨"target", "t", "target", [1], none⟩] "degenerate" rfl).2,
   pca_failure_graceful.2 (fun q => q) (fun _ _ => .error "degenerate")
      (.ok ⟨[], 0, none, false⟩) ⟨["a"], 1, some [[1]], false⟩
      ⟨[], "t", 1, false, false⟩ [[1]] (by rfl) (by with_unfolding_all decide)⟩

end FT
